import Mathlib

/-!
Shallow embedding of the Context Assembly & Relevance Ranking Pipeline of the
knowledge-base-assistant repository, together with proofs of the specified
properties.

The embedding follows the Python source:
  * `app/backend/services/llm_service.py` (`LLMService`: `estimate_tokens`,
    `chunk_text`, `summarize_context`, `answer_question`,
    `prioritize_articles`),
  * `app/backend/db.py` (`get_articles_by_ids`, `search_articles_fts`),
  * `app/backend/v1/endpoints/article.py` (`ask_question` endpoint).

Python strings are Lean `String`s (both are sequences of Unicode code points,
and `len` / slicing count code points in both).  Machine floats occur in one
place only (`len(text) * 0.25` in `estimate_tokens`); since `0.25 = 2⁻²`, the
multiplication is exact for any realistic length and `int(len(text) * 0.25)`
equals natural-number division `len / 4`, which is how it is embedded.
The external collaborators (the OpenAI chat-completion client and the
PostgreSQL full-text machinery) are modelled as oracle parameters; the calls
the pipeline makes to the completion service are recorded in an explicit
call trace so that claims of the form "makes no call / exactly one call"
are statable.
-/

namespace KBA

/-- A document (article) as hydrated by the Document Store
(`get_articles_by_ids` / `search_articles_fts` join authors, categories and
tags onto the article row).  The pipeline only reads these fields. -/
structure Article where
  id : Int
  title : String
  content : String
  author_name : String
  category_name : String
  tags : List String
  published_date : Int
deriving Repr, DecidableEq

/-! ## Token estimator

`LLMService.estimate_tokens`: `int(len(text) * self.approx_tokens_per_char)`
with `approx_tokens_per_char = 0.25`, i.e. `⌊len(text) / 4⌋`. -/

def estimate_tokens (text : String) : Nat :=
  text.length / 4

/-! ## Word splitting

`str.split()` (no separator argument) and `re.findall(r'\b\w+\b', s)` both
return the maximal runs of characters drawn from some class: non-whitespace
characters for `split()`, word characters for the regex.  `runsAux` extracts
the maximal runs of characters satisfying `p`, accumulating the current run
in reverse. -/

def runsAux (p : Char → Bool) : List Char → List Char → List String
  | [], acc => if acc = [] then [] else [String.mk acc.reverse]
  | c :: cs, acc =>
    if p c then
      runsAux p cs (c :: acc)
    else if acc = [] then
      runsAux p cs []
    else
      String.mk acc.reverse :: runsAux p cs []

/-- Maximal runs of characters of `s` satisfying `p`. -/
def runs (p : Char → Bool) (s : String) : List String :=
  runsAux p s.data []

/-- Python `text.split()`: whitespace-delimited words of `text`. -/
def pywords (text : String) : List String :=
  runs (fun c => !c.isWhitespace) text

/-- Python `s.lower()`: lowercase each character. -/
def pylower (s : String) : String :=
  String.mk (s.data.map Char.toLower)

/-- Python `s.strip()`: drop leading and trailing whitespace. -/
def pystrip (s : String) : String :=
  String.mk (((s.data.dropWhile Char.isWhitespace).reverse.dropWhile Char.isWhitespace).reverse)

/-- Python `sep.join(parts)`. -/
def pyjoin (sep : String) : List String → String
  | [] => ""
  | [w] => w
  | w :: ws => w ++ sep ++ pyjoin sep ws

/-- Python `s[:n]`: the first `n` characters of `s`. -/
def pytake (s : String) (n : Nat) : String :=
  String.mk (s.data.take n)

/-- `re.findall(r'\b\w+\b', s.lower())` as used by `prioritize_articles`:
the maximal runs of word characters (alphanumeric or underscore) of the
lowercased string. -/
def word_tokens (s : String) : List String :=
  runs (fun c => c.isAlphanum || c == '_') (pylower s)

/-! ## Chunker

`LLMService.chunk_text`.  The Python loop builds `current_chunk` as a list of
words and appends `" ".join(current_chunk)` to `chunks` whenever it closes a
chunk; `chunkGroups` returns the groups of words and `chunk_text` joins each
group, which is the same computation. -/

def chunkGroups (max_chunk_size : Nat) : List String → List String → Nat → List (List String)
  | [], current_chunk, _ =>
    if current_chunk = [] then [] else [current_chunk]
  | word :: words, current_chunk, current_size =>
    let word_size := estimate_tokens (word ++ " ")
    if current_size + word_size > max_chunk_size ∧ current_chunk ≠ [] then
      current_chunk :: chunkGroups max_chunk_size words [word] word_size
    else
      chunkGroups max_chunk_size words (current_chunk ++ [word]) (current_size + word_size)

/-- `LLMService.chunk_text(text, max_chunk_size)` (default `max_chunk_size`
is 1000 in the source). -/
def chunk_text (text : String) (max_chunk_size : Nat) : List String :=
  if estimate_tokens text ≤ max_chunk_size then [text]
  else (chunkGroups max_chunk_size (pywords text) [] 0).map (pyjoin " ")

/-- Accumulated word cost of a chunk: the sum, over its words, of
`estimate_tokens(word + " ")` — exactly the quantity `current_size` that the
source accumulates while packing a chunk. -/
def words_size (ws : List String) : Nat :=
  (ws.map (fun w => estimate_tokens (w ++ " "))).sum

/-! ## Keyword-overlap prioritization

`LLMService.prioritize_articles`.  `set(re.findall(...))` is modelled by
deduplicating the token list; `len(a.intersection(b))` is the number of
distinct tokens of `a` that occur in `b`.  Python `list.sort(key=..,
reverse=True)` is a stable descending sort: it is modelled by the stable
`List.insertionSort` with the relation `y.1 ≤ x.1` (which holds both ways
on ties, so tie-equivalent elements keep their original order). -/

def overlap_count (question_words : List String) (s : String) : Nat :=
  (question_words.filter (fun t => t ∈ word_tokens s)).length

/-- Relevance score of one article: 3 × title matches + content matches. -/
def article_score (question_words : List String) (a : Article) : Nat :=
  3 * overlap_count question_words a.title + overlap_count question_words a.content

/-- The sort order of `scored_articles.sort(key=lambda x: x[0], reverse=True)`:
descending by score. -/
def score_desc (x y : Nat × Article) : Prop := y.1 ≤ x.1

instance : DecidableRel score_desc := fun x y => Nat.decLe y.1 x.1

instance : IsTotal (Nat × Article) score_desc := ⟨fun x y => Nat.le_total y.1 x.1⟩

instance : IsTrans (Nat × Article) score_desc := ⟨fun _ _ _ h h' => Nat.le_trans h' h⟩

def prioritize_articles (articles : List Article) (question : String) (max_articles : Nat) : List Article :=
  if articles.length ≤ max_articles then articles
  else
    let question_words := (word_tokens question).dedup
    let scored_articles := articles.map (fun a => (article_score question_words a, a))
    let sorted := List.insertionSort score_desc scored_articles
    (sorted.take max_articles).map (·.2)

/-! ### Spec-side formulation of prioritization

The claim describes prioritization as: score each document as
`3 × |question-tokens ∩ title-tokens| + 1 × |question-tokens ∩ body-tokens|`
over sets of distinct lowercase word tokens, sort descending by score with
ties keeping the original input order, and keep the first N.  The following
definitions follow those words (token sets as `Finset`s, the stable tie-break
made explicit through position indices); the C1 theorem proves them
equivalent to the source's `prioritize_articles`. -/

/-- The set of distinct lowercase word tokens of a string. -/
def spec_token_set (s : String) : Finset String := (word_tokens s).toFinset

/-- The spec's relevance score:
`3 × |question-tokens ∩ title-tokens| + 1 × |question-tokens ∩ body-tokens|`. -/
def spec_score (question : String) (a : Article) : Nat :=
  3 * (spec_token_set question ∩ spec_token_set a.title).card
    + 1 * (spec_token_set question ∩ spec_token_set a.content).card

/-- "Sort descending by score with ties keeping the original input order",
as an order on position-indexed scored rows: score descending, ties by
original position ascending. -/
def score_pos_desc (x y : Nat × (Nat × Article)) : Prop :=
  y.2.1 < x.2.1 ∨ (x.2.1 = y.2.1 ∧ x.1 ≤ y.1)

instance : DecidableRel score_pos_desc := fun x y =>
  inferInstanceAs (Decidable (y.2.1 < x.2.1 ∨ (x.2.1 = y.2.1 ∧ x.1 ≤ y.1)))

/-- The spec-described prioritization for candidate lists longer than the
cap: score, stable-sort descending, keep the first `max_articles`. -/
def prioritize_spec (articles : List Article) (question : String) (max_articles : Nat) : List Article :=
  let scored := articles.map (fun a => (spec_score question a, a))
  let sorted := (List.insertionSort score_pos_desc scored.enum).map (·.2)
  (sorted.take max_articles).map (·.2)

/-- Scenario fixture (spec §8): a document whose title shares word tokens
with the question "What is FastAPI used for?". -/
def doc_fastapi : Article :=
  ⟨1, "Building fast APIs with FastAPI and AsyncIO", "FastAPI overview", "Jane", "Tech", [], 10⟩

/-- Scenario fixture (spec §8): a document sharing no word token with that
question. -/
def doc_postgres : Article :=
  ⟨2, "Mastering PostgreSQL indexing", "btree details", "Joe", "Tech", [], 20⟩

/-! ## Text Completion Service collaborator and call trace

The OpenAI client is external; a call either yields generated text or fails
with some exception message.  It is modelled as an oracle
`String → Except String String` from the prompt.  The pipeline records the
collaborator invocations it performs in a trace, so that "makes no call" /
"calls exactly once" are statable. -/

inductive PipelineCall where
  /-- An invocation of keyword-overlap prioritization (`prioritize_articles`). -/
  | rank
  /-- An invocation of context assembly (building the context string inside
  `answer_question`). -/
  | assemble
  /-- An invocation of the Text Completion Service with the given prompt. -/
  | complete (prompt : String)
deriving Repr, DecidableEq

/-- The `LLMService` instance: the completion collaborator plus the
configuration constants set in `__init__` (`self.max_tokens = 4000`; the
estimation ratio is baked into `estimate_tokens`). -/
structure LLMService where
  llm : String → Except String String
  max_tokens : Nat

/-! ## Context assembly and summarization (`LLMService.summarize_context`) -/

/-- One article block of `summarize_context`:
`f"Title: {title}\n" + f"Content: {content}\n\n"`. -/
def summary_block (a : Article) : String :=
  "Title: " ++ a.title ++ "\n" ++ "Content: " ++ a.content ++ "\n\n"

/-- The `total_content` accumulator of `summarize_context`. -/
def total_content (articles : List Article) : String :=
  String.join (articles.map summary_block)

/-- The summarization prompt of `summarize_context`. -/
def summary_prompt (tc : String) : String :=
  "Please summarize the following articles concisely while preserving key information:\n\n"
    ++ tc
    ++ "\n\nProvide a concise summary that captures the main points and key details:"

/-- `LLMService.summarize_context`: return the concatenation verbatim when it
fits the budget, otherwise ask the completion service for a summary, falling
back to character-level truncation (`total_content[:self.max_tokens * 4]`)
when that call fails. -/
def LLMService.summarize_context (svc : LLMService) (articles : List Article) :
    String × List PipelineCall :=
  let tc := total_content articles
  if estimate_tokens tc ≤ svc.max_tokens then (tc, [])
  else
    let prompt := summary_prompt tc
    match svc.llm prompt with
    | .ok s => (s, [.complete prompt])
    | .error _ => (pytake tc (svc.max_tokens * 4), [.complete prompt])

/-! ## Question answering (`LLMService.answer_question`) -/

/-- One article block of `answer_question` (title, author, category, content,
and a tags line when the article has tags). -/
def context_block (a : Article) : String :=
  let article_text :=
    "Title: " ++ a.title ++ "\n"
      ++ "Author: " ++ a.author_name ++ "\n"
      ++ "Category: " ++ a.category_name ++ "\n"
      ++ "Content: " ++ a.content ++ "\n"
  if a.tags = [] then article_text
  else article_text ++ "Tags: " ++ pyjoin ", " a.tags ++ "\n"

/-- `full_context = "\n\n---\n\n".join(context_parts)`. -/
def full_context_of (context_articles : List Article) : String :=
  pyjoin "\n\n---\n\n" (context_articles.map context_block)

/-- The answer-generation prompt of `answer_question`. -/
def answer_prompt (question full_context : String) : String :=
  "Based on this context:\n\n"
    ++ full_context
    ++ "\n\nQuestion: " ++ question
    ++ "\n\nPlease provide a concise and accurate answer based on the information above. If the context doesn\x27t contain enough information to answer the question, please say so."

/-- The context text `answer_question` actually embeds in its prompt: the raw
concatenation when it fits the budget, otherwise the result of
`summarize_context` (with the completion calls that made). -/
def LLMService.assembled_context (svc : LLMService) (context_articles : List Article) :
    String × List PipelineCall :=
  let full_context := full_context_of context_articles
  if estimate_tokens full_context > svc.max_tokens then
    svc.summarize_context context_articles
  else (full_context, [])

/-- `LLMService.answer_question`: fixed message on empty context, otherwise
assemble the context, prompt the completion service once, and turn a failure
into the string `"Error generating answer: " ++ e` instead of an exception. -/
def LLMService.answer_question (svc : LLMService) (question : String)
    (context_articles : List Article) : String × List PipelineCall :=
  if context_articles = [] then
    ("No relevant context found to answer your question.", [])
  else
    let fc := svc.assembled_context context_articles
    let prompt := answer_prompt question fc.1
    match svc.llm prompt with
    | .ok s => (s, .assemble :: fc.2 ++ [.complete prompt])
    | .error e => ("Error generating answer: " ++ e, .assemble :: fc.2 ++ [.complete prompt])

/-! ## Document Store (`app/backend/db.py`) -/

/-- `Database.get_articles_by_ids`: empty for an empty id list, otherwise the
stored articles whose id is in the list, ordered by
`published_date DESC`. -/
def date_desc (a b : Article) : Prop := b.published_date ≤ a.published_date

instance : DecidableRel date_desc := fun a b => Int.decLe b.published_date a.published_date

instance : IsTotal Article date_desc := ⟨fun a b => Int.le_total b.published_date a.published_date⟩

instance : IsTrans Article date_desc := ⟨fun _ _ _ h h' => Int.le_trans h' h⟩

def get_articles_by_ids (store : List Article) (article_ids : List Int) : List Article :=
  if article_ids = [] then []
  else List.insertionSort date_desc (store.filter (fun a => a.id ∈ article_ids))

/-- The `ts_query` preprocessing of `search_articles_fts`:
`' & '.join(query.strip().split())`, falling back to the raw query when no
word survives. -/
def ts_query_of (query : String) : String :=
  let j := pyjoin " & " (pywords (pystrip query))
  if j = "" then query else j

/-- The PostgreSQL full-text internals (`to_tsvector`/`to_tsquery` matching
and `ts_rank`) are external collaborators; they are modelled as oracles of
the tsquery string and the article row. -/
structure FtsIndex where
  ts_match : String → Article → Bool
  ts_rank_of : String → Article → ℚ

/-- The `WHERE ($2::text IS NULL OR c.name ILIKE $2)` filter: the pattern is
`%category%`, i.e. case-insensitive substring match on the category name. -/
def category_pass (category : Option String) (a : Article) : Bool :=
  match category with
  | none => true
  | some cat => decide ((pylower cat).data <:+: (pylower a.category_name).data)

/-- `ORDER BY rank DESC, r.published_date DESC` as a relation on
(rank, article) rows: rank descending, ties by publication date
descending. -/
def rank_date_desc (x y : ℚ × Article) : Prop :=
  y.1 < x.1 ∨ (y.1 = x.1 ∧ y.2.published_date ≤ x.2.published_date)

instance : DecidableRel rank_date_desc := fun x y =>
  inferInstanceAs (Decidable (y.1 < x.1 ∨ (y.1 = x.1 ∧ y.2.published_date ≤ x.2.published_date)))

instance : IsTotal (ℚ × Article) rank_date_desc := by
  constructor
  intro x y
  rcases lt_trichotomy x.1 y.1 with h | h | h
  · exact Or.inr (Or.inl h)
  · rcases Int.le_total y.2.published_date x.2.published_date with h' | h'
    · exact Or.inl (Or.inr ⟨h.symm, h'⟩)
    · exact Or.inr (Or.inr ⟨h, h'⟩)
  · exact Or.inl (Or.inl h)

instance : IsTrans (ℚ × Article) rank_date_desc := by
  constructor
  rintro x y z (h₁ | ⟨e₁, d₁⟩) (h₂ | ⟨e₂, d₂⟩)
  · exact Or.inl (h₂.trans h₁)
  · exact Or.inl (e₂ ▸ h₁)
  · exact Or.inl (e₁ ▸ h₂)
  · exact Or.inr ⟨e₂.trans e₁, d₂.trans d₁⟩

/-- The ranked rows of `search_articles_fts` before `LIMIT`: category filter,
the `($1 = '' OR r.document @@ r.q)` keep condition, the
`CASE WHEN $1 <> '' THEN ts_rank(..) ELSE 0 END` rank column, and the
`ORDER BY rank DESC, published_date DESC` sort. -/
def fts_ranked (idx : FtsIndex) (store : List Article) (query : String)
    (category : Option String) : List (ℚ × Article) :=
  let q := ts_query_of query
  let rows := store.filter (category_pass category)
  let kept := rows.filter (fun a => decide (q = "") || idx.ts_match q a)
  let scored := kept.map (fun a => (if q = "" then (0 : ℚ) else idx.ts_rank_of q a, a))
  List.insertionSort rank_date_desc scored

/-- `Database.search_articles_fts` (the article rows it returns, in order). -/
def search_articles_fts (idx : FtsIndex) (store : List Article) (query : String)
    (category : Option String) (limit : Nat) : List Article :=
  ((fts_ranked idx store query category).take limit).map (·.2)

/-! ## The `/ask` endpoint (`app/backend/v1/endpoints/article.py`) -/

/-- `AskResponse`: the generated answer plus the context articles used. -/
structure AskResponse where
  answer : String
  context_used : List Article
deriving Repr, DecidableEq

/-- The fixed no-context answer string. -/
def no_context_answer : String :=
  "No relevant context found to answer your question."

/-- The `ask_question` endpoint handler: resolve the ids, return the fixed
no-context response when nothing resolves, otherwise prioritize (cap 5),
generate an answer, and return it with the prioritized context. -/
def ask_question (svc : LLMService) (store : List Article) (question : String)
    (context_ids : List Int) : AskResponse × List PipelineCall :=
  let articles := get_articles_by_ids store context_ids
  if articles = [] then
    ({ answer := no_context_answer, context_used := [] }, [])
  else
    let prioritized_articles := prioritize_articles articles question 5
    let ans := svc.answer_question question prioritized_articles
    ({ answer := ans.1, context_used := prioritized_articles }, .rank :: ans.2)

/-!
# Verification

Helper lemmas first, then one theorem per claim (with witnesses and
counterexamples where applicable).
-/

/-! ## Word splitting and rejoining -/

theorem mk_data (s : String) : String.mk s.data = s := rfl

theorem space_data : (" " : String).data = [' '] := rfl

theorem runsAux_word (p : Char → Bool) (w : List Char) (hw : ∀ c ∈ w, p c = true) :
    ∀ (rest acc : List Char), runsAux p (w ++ rest) acc = runsAux p rest (w.reverse ++ acc) := by
  induction w with
  | nil => intro rest acc; simp
  | cons c cs ih =>
    intro rest acc
    have hc : p c = true := hw c (List.mem_cons_self _ _)
    show runsAux p (c :: (cs ++ rest)) acc = _
    rw [runsAux, if_pos hc, ih (fun d hd => hw d (List.mem_cons_of_mem _ hd)) rest (c :: acc)]
    simp [List.append_assoc]

theorem runsAux_space (p : Char → Bool) (hsp : p ' ' = false) (rest acc : List Char)
    (hacc : acc ≠ []) :
    runsAux p (' ' :: rest) acc = String.mk acc.reverse :: runsAux p rest [] := by
  rw [runsAux, if_neg (by simp [hsp]), if_neg hacc]

theorem runsAux_members (p : Char → Bool) :
    ∀ (l acc : List Char), (∀ c ∈ acc, p c = true) →
      ∀ w ∈ runsAux p l acc, w.data ≠ [] ∧ ∀ c ∈ w.data, p c = true := by
  intro l
  induction l with
  | nil =>
    intro acc hacc w hw
    rw [runsAux] at hw
    by_cases h : acc = []
    · simp [h] at hw
    · rw [if_neg h] at hw
      rw [List.mem_singleton] at hw
      subst hw
      refine ⟨by simpa using h, ?_⟩
      intro c hc
      exact hacc c (by simpa using hc)
  | cons c cs ih =>
    intro acc hacc w hw
    rw [runsAux] at hw
    by_cases hc : p c = true
    · rw [if_pos hc] at hw
      refine ih (c :: acc) ?_ w hw
      intro d hd
      rcases List.mem_cons.mp hd with rfl | hd'
      · exact hc
      · exact hacc d hd'
    · rw [if_neg hc] at hw
      by_cases he : acc = []
      · rw [if_pos he] at hw
        exact ih [] (by simp) w hw
      · rw [if_neg he] at hw
        rcases List.mem_cons.mp hw with rfl | hw'
        · refine ⟨by simpa using he, ?_⟩
          intro d hd
          exact hacc d (by simpa using hd)
        · exact ih [] (by simp) w hw'

theorem pywords_members (text : String) :
    ∀ w ∈ pywords text, w.data ≠ [] ∧ ∀ c ∈ w.data, (!c.isWhitespace) = true :=
  runsAux_members _ text.data [] (by simp)

theorem runsAux_pyjoin (p : Char → Bool) (hsp : p ' ' = false) :
    ∀ ws : List String, (∀ w ∈ ws, w.data ≠ [] ∧ ∀ c ∈ w.data, p c = true) →
      runsAux p (pyjoin " " ws).data [] = ws := by
  intro ws
  induction ws with
  | nil => intro _; rfl
  | cons w ws ih =>
    intro h
    have hw := h w (List.mem_cons_self _ _)
    have hrest := fun w' hw' => h w' (List.mem_cons_of_mem _ hw')
    cases ws with
    | nil =>
      show runsAux p w.data [] = [w]
      have h1 := runsAux_word p w.data hw.2 [] []
      rw [List.append_nil, List.append_nil] at h1
      rw [h1, runsAux, if_neg (by simpa using hw.1)]
      simp [mk_data]
    | cons w2 ws2 =>
      have hdata : (pyjoin " " (w :: w2 :: ws2)).data
          = w.data ++ ' ' :: (pyjoin " " (w2 :: ws2)).data := by
        show ((w ++ " ") ++ pyjoin " " (w2 :: ws2)).data = _
        simp [String.data_append, space_data]
      rw [hdata]
      have h1 := runsAux_word p w.data hw.2 (' ' :: (pyjoin " " (w2 :: ws2)).data) []
      rw [List.append_nil] at h1
      rw [h1, runsAux_space p hsp _ _ (by simpa using hw.1)]
      rw [List.reverse_reverse, mk_data, ih hrest]

theorem pywords_pyjoin (ws : List String)
    (h : ∀ w ∈ ws, w.data ≠ [] ∧ ∀ c ∈ w.data, (!c.isWhitespace) = true) :
    pywords (pyjoin " " ws) = ws :=
  runsAux_pyjoin _ (by decide) ws h

/-! ## Chunker structure -/

theorem chunkGroups_flatten (maxs : Nat) :
    ∀ (ws cur : List String) (size : Nat),
      (chunkGroups maxs ws cur size).flatten = cur ++ ws := by
  intro ws
  induction ws with
  | nil =>
    intro cur size
    by_cases h : cur = [] <;> simp [chunkGroups, h]
  | cons w ws ih =>
    intro cur size
    rw [chunkGroups]
    split
    · simp [ih]
    · rw [ih]
      simp

theorem chunkGroups_ne_nil (maxs : Nat) :
    ∀ (ws cur : List String) (size : Nat), ∀ g ∈ chunkGroups maxs ws cur size, g ≠ [] := by
  intro ws
  induction ws with
  | nil =>
    intro cur size g hg
    rw [chunkGroups] at hg
    by_cases h : cur = []
    · simp [h] at hg
    · rw [if_neg h] at hg
      rw [List.mem_singleton] at hg
      exact hg ▸ h
  | cons w ws ih =>
    intro cur size g hg
    rw [chunkGroups] at hg
    split at hg
    · rcases List.mem_cons.mp hg with rfl | hg'
      · rename_i hcond
        exact hcond.2
      · exact ih _ _ g hg'
    · exact ih _ _ g hg

theorem words_size_append (a b : List String) :
    words_size (a ++ b) = words_size a + words_size b := by
  simp [words_size]

theorem chunkGroups_size (maxs : Nat) :
    ∀ (ws cur : List String) (size : Nat), size = words_size cur →
      (2 ≤ cur.length → size ≤ maxs) →
      ∀ g ∈ chunkGroups maxs ws cur size, 2 ≤ g.length → words_size g ≤ maxs := by
  intro ws
  induction ws with
  | nil =>
    intro cur size hsz hbound g hg hlen
    rw [chunkGroups] at hg
    by_cases h : cur = []
    · simp [h] at hg
    · rw [if_neg h] at hg
      rw [List.mem_singleton] at hg
      subst hg
      exact hsz ▸ hbound hlen
  | cons w ws ih =>
    intro cur size hsz hbound g hg hlen
    rw [chunkGroups] at hg
    split at hg
    · rcases List.mem_cons.mp hg with rfl | hg'
      · exact hsz ▸ hbound hlen
      · refine ih [w] _ (by simp [words_size]) (by intro h2; simp at h2) g hg' hlen
    · rename_i hcond
      refine ih (cur ++ [w]) _ ?_ ?_ g hg hlen
      · rw [hsz, words_size_append]
        simp [words_size]
      · intro h2
        have hcur : cur ≠ [] := by
          intro hnil
          subst hnil
          simp at h2
        have := (not_and_or.mp hcond).resolve_right (by simp [hcur])
        omega

theorem chunk_text_piece (text : String) (maxs : Nat) (piece : String)
    (hmem : piece ∈ chunk_text text maxs) (hslow : ¬ estimate_tokens text ≤ maxs) :
    ∃ g ∈ chunkGroups maxs (pywords text) [] 0, piece = pyjoin " " g ∧ pywords piece = g := by
  rw [chunk_text, if_neg hslow] at hmem
  obtain ⟨g, hg, rfl⟩ := List.mem_map.mp hmem
  refine ⟨g, hg, rfl, ?_⟩
  refine pywords_pyjoin g ?_
  intro w hwg
  have hwords : w ∈ pywords text := by
    have := chunkGroups_flatten maxs (pywords text) [] 0
    rw [List.nil_append] at this
    exact this ▸ List.mem_flatten_of_mem hg hwg
  exact pywords_members text w hwords

/-! ## C7: rejoining the chunks preserves the word sequence -/

theorem pyjoin_append (a b : List String) (ha : a ≠ []) (hb : b ≠ []) :
    pyjoin " " (a ++ b) = pyjoin " " a ++ " " ++ pyjoin " " b := by
  induction a with
  | nil => exact absurd rfl ha
  | cons x xs ih =>
    cases xs with
    | nil =>
      cases b with
      | nil => exact absurd rfl hb
      | cons y ys => rfl
    | cons z zs =>
      have h1 : pyjoin " " ((x :: z :: zs) ++ b) = x ++ " " ++ pyjoin " " ((z :: zs) ++ b) := rfl
      have h2 : pyjoin " " (x :: z :: zs) = x ++ " " ++ pyjoin " " (z :: zs) := rfl
      rw [h1, ih (by simp), h2]
      apply String.ext
      simp [String.data_append, List.append_assoc]

theorem pyjoin_map_flatten (gs : List (List String)) (h : ∀ g ∈ gs, g ≠ []) :
    pyjoin " " (gs.map (pyjoin " ")) = pyjoin " " gs.flatten := by
  induction gs with
  | nil => rfl
  | cons g gs ih =>
    cases gs with
    | nil => simp [pyjoin]
    | cons g2 gs2 =>
      have hg : g ≠ [] := h g (List.mem_cons_self _ _)
      have hrest := fun g' hg' => h g' (List.mem_cons_of_mem _ hg')
      have hflat : (g2 :: gs2).flatten ≠ [] := by
        have : g2 ≠ [] := hrest g2 (List.mem_cons_self _ _)
        simp only [List.flatten_cons]
        intro hcontra
        exact this (List.append_eq_nil.mp hcontra).1
      have h1 : pyjoin " " ((g :: g2 :: gs2).map (pyjoin " "))
          = pyjoin " " g ++ " " ++ pyjoin " " ((g2 :: gs2).map (pyjoin " ")) := rfl
      rw [h1, ih hrest]
      conv_rhs => rw [List.flatten_cons]
      rw [pyjoin_append g _ hg hflat]

/-- C7. For every text `t` and every `max_size`, joining the pieces returned
by `chunk_text t max_size` with single spaces yields a string whose
whitespace-delimited word sequence is exactly the word sequence of `t`: no
word dropped, none duplicated, order preserved. -/
theorem chunk_text_rejoin (text : String) (maxs : Nat) :
    pywords (pyjoin " " (chunk_text text maxs)) = pywords text := by
  rw [chunk_text]
  split
  · rfl
  · rw [pyjoin_map_flatten _ (chunkGroups_ne_nil maxs (pywords text) [] 0)]
    have hflat := chunkGroups_flatten maxs (pywords text) [] 0
    rw [List.nil_append] at hflat
    rw [hflat]
    exact pywords_pyjoin _ (pywords_members text)

/-! ## C6: the per-piece size bound (corrected) -/

/-- C6 counterexample. The claim "every returned piece with two or more
words has estimated token size at most `max_size`" fails on the code: for
`chunk_text "aa aa aa" 1` every per-word size estimate rounds down to 0, so
the whole text is emitted as a single three-word piece of estimated size
2 > 1. -/
theorem chunk_text_size_claim_refuted :
    ¬ (∀ piece ∈ chunk_text "aa aa aa" 1, 2 ≤ (pywords piece).length →
        estimate_tokens piece ≤ 1) := by
  decide

/-- C6 (amended). If the text's estimated size is within `max_size`,
chunking returns the single original piece.  Otherwise every returned piece
with two or more words has accumulated word cost (the sum over its words of
`estimate_tokens (word ++ " ")`, the quantity the source bounds while
packing) at most `max_size`; the piece's own estimated size can exceed
`max_size` because the per-word estimates round down. -/
theorem chunk_text_bounds (text : String) (maxs : Nat) :
    (estimate_tokens text ≤ maxs → chunk_text text maxs = [text]) ∧
    (¬ estimate_tokens text ≤ maxs →
      ∀ piece ∈ chunk_text text maxs, 2 ≤ (pywords piece).length →
        words_size (pywords piece) ≤ maxs) := by
  constructor
  · intro h
    rw [chunk_text, if_pos h]
  · intro hslow piece hmem hlen
    obtain ⟨g, hg, _, hpw⟩ := chunk_text_piece text maxs piece hmem hslow
    rw [hpw]
    rw [hpw] at hlen
    exact chunkGroups_size maxs (pywords text) [] 0 rfl (by intro h2; simp at h2) g hg hlen

/-- C6 witness: at `max_size = 2` the text `"aaaa bbbb cccc dddd"` exceeds
the budget, the returned piece `"aaaa bbbb"` has two words, and its
accumulated word cost is within the bound. -/
theorem chunk_text_bounds_witness :
    (¬ estimate_tokens "aaaa bbbb cccc dddd" ≤ 2) ∧
    "aaaa bbbb" ∈ chunk_text "aaaa bbbb cccc dddd" 2 ∧
    2 ≤ (pywords "aaaa bbbb").length ∧
    words_size (pywords "aaaa bbbb") ≤ 2 :=
  ⟨by decide, by decide, by decide,
    (chunk_text_bounds "aaaa bbbb cccc dddd" 2).2 (by decide) "aaaa bbbb" (by decide) (by decide)⟩

/-! ## C10: the token estimator -/

/-- C10. The token estimator computes `⌊len(text) × 0.25⌋` (`0.25 = 25/100`
is the configured characters-per-token ratio and is exactly representable,
so the Python float multiplication is exact); in particular it returns 0 for
every text shorter than 4 characters, including non-empty ones. -/
theorem estimate_tokens_floor (text : String) :
    estimate_tokens text = ⌊(text.length : ℚ) * (25 / 100)⌋₊ ∧
    (text.length < 4 → estimate_tokens text = 0) := by
  constructor
  · have h : (text.length : ℚ) * (25 / 100) = (text.length : ℚ) / (4 : ℕ) := by
      push_cast
      ring
    rw [estimate_tokens, h, Nat.floor_div_nat, Nat.floor_natCast]
  · intro h
    rw [estimate_tokens]
    omega

/-- C10 witness: the non-empty three-character text `"abc"` is estimated at
zero tokens. -/
theorem estimate_tokens_floor_witness :
    "abc".length < 4 ∧ "abc" ≠ "" ∧ estimate_tokens "abc" = 0 :=
  ⟨by decide, by decide, (estimate_tokens_floor "abc").2 (by decide)⟩

/-! ## C8: prioritization is idempotent -/

theorem prioritize_articles_length (articles : List Article) (question : String)
    (max_articles : Nat) :
    (prioritize_articles articles question max_articles).length
      = min articles.length max_articles := by
  rw [prioritize_articles]
  split
  · omega
  · simp only [List.length_map, List.length_take, List.length_insertionSort]
    omega

/-- C8. Keyword-overlap prioritization is idempotent: a list of size at most
the cap is returned unchanged and in the same order, and hence applying
prioritization twice equals applying it once on every input list. -/
theorem prioritize_articles_idempotent (articles : List Article) (question : String)
    (max_articles : Nat) :
    (articles.length ≤ max_articles →
      prioritize_articles articles question max_articles = articles) ∧
    prioritize_articles (prioritize_articles articles question max_articles) question max_articles
      = prioritize_articles articles question max_articles := by
  have hfast : ∀ l : List Article, l.length ≤ max_articles →
      prioritize_articles l question max_articles = l := by
    intro l hl
    rw [prioritize_articles, if_pos hl]
  refine ⟨hfast articles, ?_⟩
  refine hfast _ ?_
  rw [prioritize_articles_length]
  omega

/-- C8 witness: a singleton list is below the default cap 5 and is returned
unchanged. -/
theorem prioritize_articles_idempotent_witness :
    ([⟨7, "t", "c", "a", "g", [], 0⟩] : List Article).length ≤ 5 ∧
    prioritize_articles [⟨7, "t", "c", "a", "g", [], 0⟩] "hi" 5
      = [⟨7, "t", "c", "a", "g", [], 0⟩] :=
  ⟨by decide,
    (prioritize_articles_idempotent [⟨7, "t", "c", "a", "g", [], 0⟩] "hi" 5).1 (by decide)⟩

/-! ## C3 / C5: the endpoint on an empty resolved document set -/

theorem ask_question_empty_aux (svc : LLMService) (store : List Article) (question : String)
    (ids : List Int) (h : get_articles_by_ids store ids = []) :
    ask_question svc store question ids
      = ({ answer := no_context_answer, context_used := [] }, []) := by
  unfold ask_question
  rw [h]
  rfl

/-- C3. For every question, if the candidate document set resolved for the
request is empty then the endpoint returns exactly the fixed no-context
answer string paired with an empty context list, and its collaborator call
trace is empty: no keyword-overlap prioritization, no context assembly, no
Text Completion Service call. -/
theorem ask_question_no_context (svc : LLMService) (store : List Article) (question : String)
    (ids : List Int) (h : get_articles_by_ids store ids = []) :
    ask_question svc store question ids
      = ({ answer := no_context_answer, context_used := [] }, ([] : List PipelineCall)) :=
  ask_question_empty_aux svc store question ids h

/-- C3 witness: ids over an empty store resolve to nothing and the endpoint
answers with the fixed message, an empty context and an empty call trace. -/
theorem ask_question_no_context_witness :
    get_articles_by_ids [] [7] = [] ∧
    ask_question ⟨fun _ => .ok "hi", 4000⟩ [] "why?" [7]
      = ({ answer := no_context_answer, context_used := [] }, ([] : List PipelineCall)) :=
  ⟨by decide, ask_question_no_context ⟨fun _ => .ok "hi", 4000⟩ [] "why?" [7] (by decide)⟩

/-- C5 counterexample. The claim says a request with an empty question, or
whose id list contains no valid stored document id, fails with a validation
error at the API boundary instead of being processed into an Answer.  On the
code, the request model does not constrain the question and unknown ids just
resolve to no articles: the request below has an empty question AND an id
list matching no stored document, yet it is processed into the well-formed
no-context `AskResponse` (a success response, not a validation failure). -/
theorem ask_validation_claim_refuted :
    ("" : String) = "" ∧
    (∀ a ∈ ([⟨1, "T", "B", "A", "C", [], 5⟩] : List Article), a.id ≠ 2) ∧
    (ask_question ⟨fun _ => .error "down", 4000⟩ [⟨1, "T", "B", "A", "C", [], 5⟩] "" [2]).1
      = { answer := no_context_answer, context_used := [] } := by
  refine ⟨rfl, by decide, ?_⟩
  rw [ask_question_empty_aux _ _ _ _ (by decide)]

/-- C5 (amended). Empty questions and id lists that resolve to no stored
document are not rejected at the API boundary: the endpoint processes them
normally and returns a well-formed `AskResponse` — the fixed no-context
answer with an empty context list whenever the id list resolves to no
articles (only payloads that fail type validation are rejected by request
parsing, which is outside this pipeline). -/
theorem ask_question_accepts_malformed (svc : LLMService) (store : List Article)
    (ids : List Int) (h : get_articles_by_ids store ids = []) :
    (ask_question svc store "" ids).1.answer = no_context_answer ∧
    (ask_question svc store "" ids).1.context_used = [] := by
  rw [ask_question_empty_aux svc store "" ids h]
  exact ⟨rfl, rfl⟩

/-- C5 witness: an empty-question request whose only id is absent from the
store is answered with the no-context response. -/
theorem ask_question_accepts_malformed_witness :
    get_articles_by_ids [⟨3, "T3", "B3", "A", "C", [], 9⟩] [99] = [] ∧
    ((ask_question ⟨fun _ => .ok "x", 4000⟩ [⟨3, "T3", "B3", "A", "C", [], 9⟩] "" [99]).1.answer
        = no_context_answer ∧
      (ask_question ⟨fun _ => .ok "x", 4000⟩ [⟨3, "T3", "B3", "A", "C", [], 9⟩] "" [99]).1.context_used
        = []) :=
  ⟨by decide,
    ask_question_accepts_malformed ⟨fun _ => .ok "x", 4000⟩
      [⟨3, "T3", "B3", "A", "C", [], 9⟩] [99] (by decide)⟩

/-! ## C2: completion failure never escapes the endpoint -/

theorem answer_question_error (svc : LLMService) (question : String) (arts : List Article)
    (e : String) (hne : arts ≠ [])
    (hfail : svc.llm (answer_prompt question (svc.assembled_context arts).1) = .error e) :
    svc.answer_question question arts
      = ("Error generating answer: " ++ e,
          .assemble :: (svc.assembled_context arts).2
            ++ [.complete (answer_prompt question (svc.assembled_context arts).1)]) := by
  unfold LLMService.answer_question
  rw [if_neg hne]
  simp only [hfail]

theorem prioritize_articles_ne_nil (articles : List Article) (question : String)
    (max_articles : Nat) (h : articles ≠ []) (hN : 0 < max_articles) :
    prioritize_articles articles question max_articles ≠ [] := by
  intro hnil
  have hlen := prioritize_articles_length articles question max_articles
  rw [hnil] at hlen
  have : articles.length ≠ 0 := by simpa [List.length_eq_zero] using h
  simp at hlen
  omega

/-- C2. For every question and every request whose resolved context document
list is non-empty, if the answer-generation call to the Text Completion
Service fails then the question-answering entry point does not raise: it
returns a well-formed `AskResponse` whose text is the descriptive
error-flavored string and whose context list is the prioritized document
list. -/
theorem ask_question_completion_failure (svc : LLMService) (store : List Article)
    (question : String) (ids : List Int) (e : String)
    (hne : get_articles_by_ids store ids ≠ [])
    (hfail : svc.llm (answer_prompt question
        (svc.assembled_context
          (prioritize_articles (get_articles_by_ids store ids) question 5)).1)
      = .error e) :
    (ask_question svc store question ids).1
      = { answer := "Error generating answer: " ++ e,
          context_used := prioritize_articles (get_articles_by_ids store ids) question 5 } := by
  have hpne : prioritize_articles (get_articles_by_ids store ids) question 5 ≠ [] :=
    prioritize_articles_ne_nil _ _ _ hne (by omega)
  unfold ask_question
  simp only [if_neg hne]
  rw [answer_question_error svc question _ e hpne hfail]

/-- C2 witness: with a completion service that always fails, a request
resolving to one stored article is answered with the error-flavored string
and the prioritized context. -/
theorem ask_question_completion_failure_witness :
    get_articles_by_ids [⟨1, "T", "B", "A", "C", [], 5⟩] [1] ≠ [] ∧
    (ask_question ⟨fun _ => .error "rate limited", 4000⟩ [⟨1, "T", "B", "A", "C", [], 5⟩]
        "q" [1]).1
      = { answer := "Error generating answer: " ++ "rate limited",
          context_used :=
            prioritize_articles (get_articles_by_ids [⟨1, "T", "B", "A", "C", [], 5⟩] [1])
              "q" 5 } :=
  ⟨by decide,
    ask_question_completion_failure ⟨fun _ => .error "rate limited", 4000⟩
      [⟨1, "T", "B", "A", "C", [], 5⟩] "q" [1] "rate limited" (by decide) rfl⟩

/-! ## C4: summarization over budget, with truncation fallback -/

theorem pytake_drop (s : String) (n : Nat) :
    pytake s n ++ String.mk (s.data.drop n) = s := by
  apply String.ext
  show (pytake s n).data ++ s.data.drop n = s.data
  show s.data.take n ++ s.data.drop n = s.data
  exact List.take_append_drop n s.data

/-- C4. For every document list whose concatenated context has an estimated
token size exceeding the configured budget, `summarize_context` invokes the
Text Completion Service exactly once (with the summarization prompt), and if
that call fails the text returned is the original concatenation truncated to
the budget's approximate character equivalent (`max_tokens * 4` characters)
— in particular a prefix of the original concatenation — and no exception
propagates. -/
theorem summarize_context_over_budget (svc : LLMService) (articles : List Article)
    (hbig : svc.max_tokens < estimate_tokens (total_content articles)) :
    (svc.summarize_context articles).2
        = [.complete (summary_prompt (total_content articles))] ∧
    ∀ e, svc.llm (summary_prompt (total_content articles)) = .error e →
      (svc.summarize_context articles).1
          = pytake (total_content articles) (svc.max_tokens * 4) ∧
      ∃ rest, (svc.summarize_context articles).1 ++ rest = total_content articles := by
  have hneg : ¬ estimate_tokens (total_content articles) ≤ svc.max_tokens := by omega
  rcases hllm : svc.llm (summary_prompt (total_content articles)) with err | s
  · constructor
    · simp only [LLMService.summarize_context, if_neg hneg, hllm]
    · intro e he
      constructor
      · simp only [LLMService.summarize_context, if_neg hneg, hllm]
      · refine ⟨String.mk ((total_content articles).data.drop (svc.max_tokens * 4)), ?_⟩
        have hres : (svc.summarize_context articles).1
            = pytake (total_content articles) (svc.max_tokens * 4) := by
          simp only [LLMService.summarize_context, if_neg hneg, hllm]
        rw [hres]
        exact pytake_drop _ _
  · constructor
    · simp only [LLMService.summarize_context, if_neg hneg, hllm]
    · intro e he
      simp at he

/-- C4 witness: with a zero budget and a failing completion service, the
single summarization call is made and the returned text is the (empty)
budget-length prefix of the concatenation. -/
theorem summarize_context_over_budget_witness :
    (0 : Nat) < estimate_tokens (total_content [⟨1, "T", "Body", "A", "C", [], 0⟩]) ∧
    ((⟨fun _ => .error "quota", 0⟩ : LLMService).summarize_context
        [⟨1, "T", "Body", "A", "C", [], 0⟩]).2
      = [.complete (summary_prompt (total_content [⟨1, "T", "Body", "A", "C", [], 0⟩]))] ∧
    (((⟨fun _ => .error "quota", 0⟩ : LLMService).summarize_context
          [⟨1, "T", "Body", "A", "C", [], 0⟩]).1
        = pytake (total_content [⟨1, "T", "Body", "A", "C", [], 0⟩]) (0 * 4) ∧
      ∃ rest, ((⟨fun _ => .error "quota", 0⟩ : LLMService).summarize_context
          [⟨1, "T", "Body", "A", "C", [], 0⟩]).1 ++ rest
        = total_content [⟨1, "T", "Body", "A", "C", [], 0⟩]) :=
  ⟨by decide,
    (summarize_context_over_budget ⟨fun _ => .error "quota", 0⟩
      [⟨1, "T", "Body", "A", "C", [], 0⟩] (by decide)).1,
    (summarize_context_over_budget ⟨fun _ => .error "quota", 0⟩
      [⟨1, "T", "Body", "A", "C", [], 0⟩] (by decide)).2 "quota" rfl⟩

/-! ## C1: prioritization equals the spec's scoring / stable-sort / cap -/

theorem overlap_count_toFinset (l : List String) (s : String) :
    overlap_count l.dedup s = (l.toFinset ∩ (word_tokens s).toFinset).card := by
  rw [overlap_count]
  have nd : (l.dedup.filter (fun t => decide (t ∈ word_tokens s))).Nodup :=
    l.nodup_dedup.filter _
  rw [← List.toFinset_card_of_nodup nd]
  congr 1
  ext x
  simp [List.mem_filter, Finset.mem_inter]

theorem article_score_spec (question : String) (a : Article) :
    article_score (word_tokens question).dedup a = spec_score question a := by
  rw [article_score, spec_score, spec_token_set, spec_token_set, spec_token_set,
    overlap_count_toFinset, overlap_count_toFinset]
  ring

theorem orderedInsert_pos (x : Nat × (Nat × Article)) (M : List (Nat × (Nat × Article)))
    (hM : ∀ y ∈ M, x.1 < y.1) :
    (List.orderedInsert score_pos_desc x M).map (·.2)
      = List.orderedInsert score_desc x.2 (M.map (·.2)) := by
  induction M with
  | nil => rfl
  | cons y ys ih =>
    have hxy : x.1 < y.1 := hM y (List.mem_cons_self _ _)
    by_cases h : score_pos_desc x y
    · have h2 : score_desc x.2 y.2 := by
        rcases h with h | ⟨heq, _⟩
        · exact Nat.le_of_lt h
        · exact Nat.le_of_eq heq.symm
      simp only [List.orderedInsert, if_pos h, if_pos h2, List.map_cons]
    · have h2 : ¬ score_desc x.2 y.2 := by
        intro hsd
        have hsd' : y.2.1 ≤ x.2.1 := hsd
        apply h
        rcases Nat.lt_or_ge y.2.1 x.2.1 with hlt | hge
        · exact Or.inl hlt
        · exact Or.inr ⟨Nat.le_antisymm hge hsd', Nat.le_of_lt hxy⟩
      rw [List.orderedInsert, if_neg h, List.map_cons, List.map_cons,
        List.orderedInsert, if_neg h2,
        ih (fun y hy => hM y (List.mem_cons_of_mem _ hy))]

theorem insertionSort_enumFrom (l : List (Nat × Article)) :
    ∀ n, (List.insertionSort score_pos_desc (l.enumFrom n)).map (·.2)
      = List.insertionSort score_desc l := by
  induction l with
  | nil => intro n; rfl
  | cons a l ih =>
    intro n
    rw [List.enumFrom_cons, List.insertionSort, List.insertionSort]
    rw [orderedInsert_pos (n, a) _ ?_, ih (n + 1)]
    intro y hy
    have hy' : y ∈ l.enumFrom (n + 1) := (List.perm_insertionSort _ _).mem_iff.mp hy
    obtain ⟨i, b⟩ := y
    have := List.mem_enumFrom hy'
    omega

/-- C1. For every question and every candidate list longer than the cap,
`prioritize_articles` returns exactly what the spec describes: score each
document as 3 × |distinct shared lowercase word tokens with the title| +
1 × |distinct shared lowercase word tokens with the body|, sort descending
by score with ties keeping the original input order, and keep only the
first `max_articles` documents. -/
theorem prioritize_articles_matches_spec (articles : List Article) (question : String)
    (max_articles : Nat) (h : max_articles < articles.length) :
    prioritize_articles articles question max_articles
      = prioritize_spec articles question max_articles := by
  have hmap : articles.map (fun a => (article_score (word_tokens question).dedup a, a))
      = articles.map (fun a => (spec_score question a, a)) := by
    apply List.map_congr_left
    intro a _
    rw [article_score_spec]
  rw [prioritize_articles, if_neg (by omega)]
  show ((List.insertionSort score_desc
      (articles.map fun a => (article_score (word_tokens question).dedup a, a))).take
        max_articles).map (·.2)
    = (((List.insertionSort score_pos_desc
        ((articles.map fun a => (spec_score question a, a)).enum)).map (·.2)).take
          max_articles).map (·.2)
  rw [hmap, List.enum_eq_enumFrom, insertionSort_enumFrom]

/-- C1 witness, on the spec's scenario: against the question
"What is FastAPI used for?", the document whose title shares tokens with
the question is ranked strictly above the one sharing none, and the code
agrees with the spec-side formulation. -/
theorem prioritize_articles_matches_spec_witness :
    1 < ([doc_postgres, doc_fastapi] : List Article).length ∧
    prioritize_articles [doc_postgres, doc_fastapi] "What is FastAPI used for?" 1
      = prioritize_spec [doc_postgres, doc_fastapi] "What is FastAPI used for?" 1 ∧
    prioritize_articles [doc_postgres, doc_fastapi] "What is FastAPI used for?" 1
      = [doc_fastapi] :=
  ⟨by decide,
    prioritize_articles_matches_spec [doc_postgres, doc_fastapi]
      "What is FastAPI used for?" 1 (by decide),
    by decide⟩

/-! ## C9: search with an empty query string -/

theorem ts_query_of_empty : ts_query_of "" = "" := by decide

theorem fts_ranked_empty_query (idx : FtsIndex) (store : List Article) :
    fts_ranked idx store "" none
      = List.insertionSort rank_date_desc (store.map (fun a => ((0 : ℚ), a))) := by
  unfold fts_ranked
  simp only [ts_query_of_empty, category_pass]
  rw [show List.filter (fun a => category_pass none a) store = store from
    List.filter_eq_self.mpr (fun a _ => rfl)]
  rw [show List.filter (fun a => decide True || idx.ts_match "" a) store
      = store from List.filter_eq_self.mpr (fun a _ => by simp)]
  simp

/-- C9. For every document store holding at least `limit` documents (with
pairwise distinct publication timestamps, without which a strict ordering is
not possible), full-text search with the empty query string and no category
filter returns exactly `limit` documents, assigns every candidate row the
relevance rank 0, and orders the result strictly by descending publication
timestamp — the empty query matches everything, not nothing. -/
theorem search_fts_empty_query (idx : FtsIndex) (store : List Article) (limit : Nat)
    (hlen : limit ≤ store.length)
    (hdates : (store.map (·.published_date)).Nodup) :
    (search_articles_fts idx store "" none limit).length = limit ∧
    (∀ p ∈ fts_ranked idx store "" none, p.1 = 0) ∧
    (search_articles_fts idx store "" none limit).Pairwise
      (fun a b => b.published_date < a.published_date) := by
  have hzero : ∀ p ∈ fts_ranked idx store "" none, p.1 = (0 : ℚ) := by
    intro p hp
    rw [fts_ranked_empty_query] at hp
    have hp' : p ∈ store.map (fun a => ((0 : ℚ), a)) :=
      (List.perm_insertionSort _ _).mem_iff.mp hp
    obtain ⟨a, _, rfl⟩ := List.mem_map.mp hp'
    rfl
  refine ⟨?_, hzero, ?_⟩
  · rw [search_articles_fts, fts_ranked_empty_query]
    simp only [List.length_map, List.length_take, List.length_insertionSort]
    omega
  · have hsorted : (fts_ranked idx store "" none).Pairwise rank_date_desc := by
      rw [fts_ranked_empty_query]
      exact List.sorted_insertionSort rank_date_desc _
    have hne : (fts_ranked idx store "" none).Pairwise
        (fun x y => x.2.published_date ≠ y.2.published_date) := by
      have h1 : store.Pairwise (fun a b => a.published_date ≠ b.published_date) := by
        rw [List.Nodup, List.pairwise_map] at hdates
        exact hdates
      have h2 : (store.map (fun a => ((0 : ℚ), a))).Pairwise
          (fun x y => x.2.published_date ≠ y.2.published_date) := by
        rw [List.pairwise_map]
        exact h1
      rw [fts_ranked_empty_query]
      exact ((List.perm_insertionSort rank_date_desc _).pairwise_iff
        (fun h => h.symm)).mpr h2
    have hstrict : (fts_ranked idx store "" none).Pairwise
        (fun x y => y.2.published_date < x.2.published_date) := by
      refine (hsorted.and hne).imp_of_mem ?_
      intro x y hx hy hxy
      have hx0 := hzero x hx
      have hy0 := hzero y hy
      rcases hxy.1 with hlt | ⟨_, hle⟩
      · rw [hx0, hy0] at hlt
        exact absurd hlt (lt_irrefl 0)
      · exact lt_of_le_of_ne hle (fun hcontra => hxy.2 hcontra.symm)
    rw [search_articles_fts]
    rw [List.pairwise_map]
    exact List.Pairwise.sublist (List.take_sublist limit _) hstrict

/-- C9 witness: two stored documents with distinct timestamps, empty query,
`limit = 1`. -/
theorem search_fts_empty_query_witness :
    (1 : Nat) ≤ ([⟨1, "T1", "B1", "A", "C", [], 100⟩, ⟨2, "T2", "B2", "A", "C", [], 200⟩]
        : List Article).length ∧
    (((([⟨1, "T1", "B1", "A", "C", [], 100⟩, ⟨2, "T2", "B2", "A", "C", [], 200⟩]
        : List Article)).map (·.published_date)).Nodup) ∧
    ((search_articles_fts ⟨fun _ _ => true, fun _ _ => 0⟩
        [⟨1, "T1", "B1", "A", "C", [], 100⟩, ⟨2, "T2", "B2", "A", "C", [], 200⟩]
        "" none 1).length = 1 ∧
      (∀ p ∈ fts_ranked ⟨fun _ _ => true, fun _ _ => 0⟩
          [⟨1, "T1", "B1", "A", "C", [], 100⟩, ⟨2, "T2", "B2", "A", "C", [], 200⟩]
          "" none, p.1 = 0) ∧
      (search_articles_fts ⟨fun _ _ => true, fun _ _ => 0⟩
          [⟨1, "T1", "B1", "A", "C", [], 100⟩, ⟨2, "T2", "B2", "A", "C", [], 200⟩]
          "" none 1).Pairwise (fun a b => b.published_date < a.published_date)) :=
  ⟨by decide, by decide,
    search_fts_empty_query ⟨fun _ _ => true, fun _ _ => 0⟩
      [⟨1, "T1", "B1", "A", "C", [], 100⟩, ⟨2, "T2", "B2", "A", "C", [], 200⟩]
      1 (by decide) (by decide)⟩

end KBA
